import Mathlib

/-!
# Verification of the horovod/tensorflow gradient-quantization module

Shallow embedding of `horovod/tensorflow/__init__.py` (a signQSGD fork of
Horovod).  Tensors are modelled as flat lists of exact rationals; the
floating-point constants of the source (`1e-13`, `1e-5`, `0.001`, `256`)
become the corresponding exact rationals.  Collective primitives
(`size`, `_allreduce`, `allgather`) live in `horovod.tensorflow.mpi_ops`,
outside the sources at hand, and are modelled from the spec where noted.
-/

set_option autoImplicit false

namespace Horovod

/-- Elementwise addition of two same-shaped tensors (`memory + eta_grad`). -/
def add (a b : List ℚ) : List ℚ := List.zipWith (· + ·) a b

/-- Elementwise subtraction (`input - q`). -/
def sub (a b : List ℚ) : List ℚ := List.zipWith (· - ·) a b

/-- `tf.sign`: 1 for positive, -1 for negative, 0 for zero. -/
def tfSign (x : ℚ) : ℚ := if 0 < x then 1 else if x < 0 then -1 else 0

/-- `tf.norm(v, ord=1)`: the L1 norm, sum of absolute values. -/
def l1norm (v : List ℚ) : ℚ := (v.map (fun x => |x|)).sum

/-- Sum of squares of a tensor.  The source compares `0 < tf.norm(values)`
(the L2 norm, line 99); over the rationals `0 < ‖v‖₂ ↔ 0 < Σ vᵢ²`, and the
norm value is used only in that comparison, so the embedding keeps the
square to stay within ℚ. -/
def sumSq (v : List ℚ) : ℚ := (v.map (fun x => x * x)).sum

/-- Inner function `signq` of `qsgd_compk` (lines 62-64):
`one_norm * tf.sign(var + 1e-13) / tf.size(var)`, elementwise. -/
def signq (var : List ℚ) : List ℚ :=
  let one_norm := l1norm var
  var.map (fun x => one_norm * tfSign (x + 1 / 10 ^ 13) / (var.length : ℚ))

/-- Module-level constant `sparsify = False` (line 48). -/
def sparsify : Bool := false

/-- Module-level constant `use_memory = True` (line 49). -/
def use_memory : Bool := true

/-- Names bound at module level of `horovod/tensorflow/__init__.py`
(the `from ... import ...` / `import` statements of lines 33-46 and the
module-level definitions).  `np` (numpy) is never imported. -/
def moduleBoundNames : List String :=
  ["check_extension", "Compression", "allgather", "broadcast", "_allreduce",
   "init", "shutdown", "size", "local_size", "rank", "local_rank",
   "mpi_threads_supported", "_executing_eagerly", "tf", "init_ops",
   "sparsify", "use_memory", "qsgd_compk", "allreduce",
   "broadcast_global_variables", "BroadcastGlobalVariablesHook",
   "DistributedOptimizer"]

/-- Python name lookup against the module environment. -/
def lookupName (s : String) : Option Unit :=
  if s ∈ moduleBoundNames then some () else none

/-- A Python runtime failure surfaced while tracing the graph. -/
inductive PyErr where
  /-- `NameError: name '...' is not defined`. -/
  | nameError : String → PyErr
  /-- A reachable-only-if-the-name-resolves branch whose behaviour
  (numpy's random generator) is nondeterministic and not modelled. -/
  | notModelled : String → PyErr
deriving DecidableEq, Repr

/-- First index of the maximal element (`tf.nn.top_k` tie-breaking:
earlier index wins). -/
def argmaxIdx (l : List ℚ) : ℕ :=
  (List.range l.length).foldl
    (fun best i => if l.getD best 0 < l.getD i 0 then i else best) 0

/-- Repeated selection of the current maximum, masking selected entries
below the (nonnegative) inputs. -/
def topKGo : ℕ → List ℚ → List ℕ → List ℕ
  | 0, _, acc => acc.reverse
  | k + 1, vals, acc =>
      let i := argmaxIdx vals
      topKGo k (vals.set i (-1)) (i :: acc)

/-- `tf.nn.top_k(|input|, k)` index output (line 86). -/
def topKIndices (vals : List ℚ) (K : ℕ) : List ℕ := topKGo K vals []

/-- Densification of `tf.IndexedSlices(vals, indices, [n])`
(line 93): scatter-add into a zero vector of length `n`. -/
def scatterTo (n : ℕ) (indices : List ℕ) (vals : List ℚ) : List ℚ :=
  (indices.zip vals).foldl
    (fun acc p => acc.set p.1 (acc.getD p.1 0 + p.2)) (List.replicate n 0)

/-- `qsgd_compk(eta_grad, memory, topK_flag, frac, s)` (lines 52-102) with
the module globals `sparsify` / `use_memory` made explicit parameters (they
are late-bound globals in Python).  `topK_flag` is an integer tested for
truthiness (`if topK_flag:`); `frac` and `s` are accepted but, as in the
source, never read on any live path (`frac` only occurs in commented-out
lines 82-83; `s` only in the never-called inner `qsgd`, lines 54-60, which
is therefore not modelled).  The unused `norm1 = tf.norm(eta_grad) + 1e-5`
of line 68 is likewise only read by the dead inner `qsgd` and is omitted.
In the `sparsify` branch with a falsy `topK_flag`, line 88 evaluates
`np.random.choice`, which requires resolving the name `np` in the module
environment. -/
def qsgd_compk_cfg (sparsifyFlag useMemoryFlag : Bool) (eta_grad memory : List ℚ)
    (topK_flag : ℤ) (frac s : ℚ) : Except PyErr (List ℚ × List ℚ) :=
  if ¬ sparsifyFlag then
    let input := if useMemoryFlag then add memory eta_grad else eta_grad
    let q := signq input
    .ok (q, sub input q)
  else
    let input := add memory eta_grad
    let numel := input.length
    let K := min 1000 numel
    if topK_flag ≠ 0 then
      let indices := topKIndices (input.map (fun x => |x|)) K
      let values := indices.map (fun i => input.getD i 0)
      let quantization := scatterTo numel indices (signq values)
      let q := if 0 < sumSq values then quantization else List.replicate numel 0
      .ok (q, sub input q)
    else
      match lookupName "np" with
      | none => .error (.nameError "np")
      | some _ => .error (.notModelled "np.random.choice")

/-- `qsgd_compk` as defined in the module, reading the module globals. -/
def qsgd_compk (eta_grad memory : List ℚ) (topK_flag : ℤ) (frac s : ℚ) :
    Except PyErr (List ℚ × List ℚ) :=
  qsgd_compk_cfg sparsify use_memory eta_grad memory topK_flag frac s

/-- Modelled from the spec: `_allreduce` (from `horovod.tensorflow.mpi_ops`,
not among the sources) — "result is the element-wise sum across all
WorldSize participants", one input tensor per rank. -/
def mpi_allreduce : List (List ℚ) → List ℚ
  | [] => []
  | t :: rest => rest.foldl add t

/-- Modelled from the spec: `allgather` (from `horovod.tensorflow.mpi_ops`,
not among the sources) — "concatenates per-worker tensors along the leading
axis in rank order", one input per rank. -/
def mpi_allgather {α : Type} (xs : List (List α)) : List α := xs.flatten

/-- Modelled from the spec: `Compression.none.compress` (from
`horovod.tensorflow.compression`, not among the sources) — the identity
transform with an empty context. -/
def none_compress (t : List ℚ) : List ℚ × Unit := (t, ())

/-- Modelled from the spec: `Compression.none.decompress` — identity. -/
def none_decompress (t : List ℚ) (_ctx : Unit) : List ℚ := t

/-- Dense branch of `allreduce` (lines 142-163), SPMD over all ranks:
`ts` / `ms` are the per-rank input tensors and per-rank `memory` slots
(the slot is zero-initialized on first access, line 148-149).  Each rank
quantizes with `qsgd_compk(tensor, memory, topK_flag=1, frac=0.001, s=256)`
(line 152), assigns the error to its memory slot (line 153), and — under a
control dependency on that assignment — compresses, allreduces, decompresses
and rescales by `size()` when averaging (lines 155-161).  Returns the
per-rank output tensors and the per-rank new memory contents. -/
def allreduceDense (ts ms : List (List ℚ)) (worldSize : ℕ) (average : Bool) :
    Except PyErr (List (List ℚ) × List (List ℚ)) := do
  let qe ← (ts.zip ms).mapM (fun p => qsgd_compk p.1 p.2 1 (1 / 1000) 256)
  let compressed := qe.map (fun p => none_compress p.1)
  let summed_compressed := mpi_allreduce (compressed.map Prod.fst)
  let summed := none_decompress summed_compressed ()
  let out := if average then summed.map (fun x => x / (worldSize : ℚ))
             else summed
  .ok (List.replicate ts.length out, qe.map Prod.snd)

/-- The value `allreduceDense` always returns (the dense quantizer never
raises: `sparsify` is `False`, so `qsgd_compk` takes the sign path). -/
def denseResult (ts ms : List (List ℚ)) (worldSize : ℕ) (average : Bool) :
    List (List ℚ) × List (List ℚ) :=
  let qe := (ts.zip ms).map
    (fun p => let input := add p.2 p.1
              (signq input, sub input (signq input)))
  let compressed := qe.map (fun p => none_compress p.1)
  let summed := none_decompress (mpi_allreduce (compressed.map Prod.fst)) ()
  let out := if average then summed.map (fun x => x / (worldSize : ℚ))
             else summed
  (List.replicate ts.length out, qe.map Prod.snd)

/-- `tf.IndexedSlices`: per-row values, row indices, logical dense shape. -/
structure IndexedSlices where
  values : List (List ℚ)
  indices : List ℕ
  dense_shape : List ℕ
deriving DecidableEq, Repr

/-- Sparse branch of `allreduce` (lines 130-141), SPMD: every rank holds one
`IndexedSlices`; `slices` lists them in rank order and `r` is the calling
rank.  Values and indices are allgathered separately; averaging divides the
gathered values by `size()` (= `worldSize`); the result reuses the calling
rank's `dense_shape`. -/
def allreduceSparse (worldSize : ℕ) (slices : List IndexedSlices) (r : ℕ)
    (average : Bool) : IndexedSlices :=
  let values := mpi_allgather (slices.map IndexedSlices.values)
  let indices := mpi_allgather (slices.map IndexedSlices.indices)
  let new_values :=
    if average then values.map (List.map (fun x => x / (worldSize : ℚ)))
    else values
  ⟨new_values, indices, (slices.getD r ⟨[], [], []⟩).dense_shape⟩

/-- One entry of `grads_and_vars`, SPMD across ranks: the per-rank gradient
tensors for one variable (`none` when the gradient is `None` on every rank
— the graph is identical across ranks), and the variable's per-rank
`memory` slots. -/
structure VarSlot where
  grad : Option (List (List ℚ))
  mem : List (List ℚ)
deriving DecidableEq, Repr

/-- One entry of the list comprehension in `allreduce_grads`
(lines 259-264): `allreduce(grad * learning_rate, ...) /
(learning_rate + 1e-5)` with averaging for a non-`None` gradient, the
gradient unchanged (`if grad is not None else grad`) otherwise. -/
def allreduce_grads_slot (lr : ℚ) (worldSize : ℕ) (sl : VarSlot) :
    Except PyErr (Option (List (List ℚ)) × List (List ℚ)) :=
  match sl.grad with
  | none => .ok (none, sl.mem)
  | some gs => do
      let res ← allreduceDense (gs.map (List.map (fun x => x * lr)))
                  sl.mem worldSize true
      .ok (some (res.1.map (List.map (fun x => x / (lr + 1 / 100000)))),
           res.2)

/-- `allreduce_grads` (lines 257-264): the list comprehension over
`grads_and_vars`.  Returns per variable the per-rank synchronized
gradients and the per-rank new memory contents. -/
def allreduce_grads (lr : ℚ) (worldSize : ℕ) (slots : List VarSlot) :
    Except PyErr (List (Option (List (List ℚ)) × List (List ℚ))) :=
  slots.mapM (allreduce_grads_slot lr worldSize)

/-- `DistributedOptimizer.compute_gradients` (lines 278-292): when
`size() > 1` the gradients are synchronized through `allreduce_grads`,
otherwise `grads_and_vars` is returned unchanged. -/
def compute_gradients (lr : ℚ) (worldSize : ℕ) (slots : List VarSlot) :
    Except PyErr (List (Option (List (List ℚ)) × List (List ℚ))) :=
  if 1 < worldSize then allreduce_grads lr worldSize slots
  else .ok (slots.map (fun sl => (sl.grad, sl.mem)))

/-- Written from the spec's words (§4.2, for comparison with the source's
`signq`): `quantized = scale * sign(input + 1e-13)` with
`scale = (L1 norm of input) / elementCount`. -/
def specQuantized (input : List ℚ) : List ℚ :=
  input.map (fun x => l1norm input / (input.length : ℚ) * tfSign (x + 1 / 10 ^ 13))

/-- `quantize(t, 0)`: the quantized tensor `qsgd_compk` produces for
gradient `t` with an all-zero residual of the same shape. -/
def quantizeAt (t : List ℚ) : List ℚ :=
  match qsgd_compk t (List.replicate t.length 0) 1 (1 / 1000) 256 with
  | .ok p => p.1
  | .error _ => []

/-- The per-configuration magnitude `scale = L1(t) / count(t)`. -/
def scaleOf (t : List ℚ) : ℚ := l1norm t / (t.length : ℚ)

/-- One quantization step under an all-zero gradient of size `n`: the
quantized tensor and the new residual `qsgd_compk` produce from the
current residual `m`. -/
def stepZero (n : ℕ) (m : List ℚ) : List ℚ × List ℚ :=
  match qsgd_compk (List.replicate n 0) m 1 (1 / 1000) 256 with
  | .ok p => p
  | .error _ => ([], [])

/-- The residual across steps when every step's gradient is the zero tensor
of size `n` and the residual starts at zero. -/
def residualSeq (n : ℕ) : ℕ → List ℚ
  | 0 => List.replicate n 0
  | k + 1 => (stepZero n (residualSeq n k)).2

/-- The graph nodes of one dense-path `allreduce` call (lines 148-161). -/
inductive Event where
  /-- obtaining the `memory` slot contents (line 149) -/
  | memoryRead : Event
  /-- `qsgd_compk(tensor, memory, ...)` (line 152) -/
  | quantize : Event
  /-- `mem_update_op = memory.assign(error)` (line 153) -/
  | memoryWrite : Event
  /-- `compression.compress(tensor_quantized)` (line 157) -/
  | compress : Event
  /-- `_allreduce(tensor_compressed)` (line 158) -/
  | reduce : Event
  /-- `compression.decompress(...)` (line 159) -/
  | decompress : Event
  /-- `tf.div(summed_tensor, horovod_size)` (line 160) -/
  | rescale : Event
deriving DecidableEq, Repr, Fintype

/-- Dependency edges of the TensorFlow graph built by the dense path:
data edges follow the tensor inputs of each op, and every op created
inside the `tf.control_dependencies([mem_update_op])` block (lines
155-161: compress, reduce, decompress, rescale) carries a control edge on
`memoryWrite`. -/
def deps : Event → List Event
  | .memoryRead => []
  | .quantize => [.memoryRead]
  | .memoryWrite => [.quantize]
  | .compress => [.quantize, .memoryWrite]
  | .reduce => [.compress, .memoryWrite]
  | .decompress => [.reduce, .memoryWrite]
  | .rescale => [.decompress, .memoryWrite]

/-- Position of an event in a schedule. -/
def idx (e : Event) (l : List Event) : ℕ := l.findIdx (fun x => decide (x = e))

/-- An execution order of the dense path: each graph node runs exactly
once, and every node runs after all of its dependencies. -/
def validSchedule (l : List Event) : Prop :=
  (∀ e : Event, l.count e = 1) ∧
  (∀ a b : Event, b ∈ deps a → idx b l < idx a l)

instance (l : List Event) : Decidable (validSchedule l) := by
  unfold validSchedule; infer_instance

/-- The execution order actually realized by the code: the residual is
assigned right after quantization, before compression and reduction. -/
def codeSchedule : List Event :=
  [.memoryRead, .quantize, .memoryWrite, .compress, .reduce, .decompress,
   .rescale]

/-- The ordering asserted by the spec's state machine: quantize, compress,
reduce, decompress, rescale, and only then the memory write. -/
def specOrder (l : List Event) : Prop :=
  idx .quantize l < idx .compress l ∧ idx .compress l < idx .reduce l ∧
  idx .reduce l < idx .decompress l ∧ idx .decompress l < idx .rescale l ∧
  idx .rescale l < idx .memoryWrite l

instance (l : List Event) : Decidable (specOrder l) := by
  unfold specOrder; infer_instance

/-- The pure value `allreduce_grads` produces for one `grads_and_vars`
entry (see `allreduce_grads_eq`). -/
def gradStep (lr : ℚ) (ws : ℕ) (sl : VarSlot) :
    Option (List (List ℚ)) × List (List ℚ) :=
  match sl.grad with
  | none => (none, sl.mem)
  | some gs =>
      let dr := denseResult (gs.map (List.map (fun x => x * lr))) sl.mem ws true
      (some (dr.1.map (List.map (fun x => x / (lr + 1 / 100000)))), dr.2)

/-! ## Helper lemmas -/

lemma zipWith_replicate_fn (f : ℚ → ℚ → ℚ) (n : ℕ) (a b : ℚ) :
    List.zipWith f (List.replicate n a) (List.replicate n b) =
      List.replicate n (f a b) := by
  induction n with
  | zero => rfl
  | succ k ih => simp [List.replicate_succ, ih]

lemma add_replicate_zero_left (t : List ℚ) :
    add (List.replicate t.length 0) t = t := by
  induction t with
  | nil => rfl
  | cons x xs ih => simp [add, List.replicate_succ] at ih ⊢; exact ih

lemma l1norm_replicate_zero (n : ℕ) : l1norm (List.replicate n 0) = 0 := by
  simp [l1norm, List.map_replicate]

lemma signq_replicate_zero (n : ℕ) :
    signq (List.replicate n 0) = List.replicate n 0 := by
  simp [signq, l1norm_replicate_zero, List.map_replicate]

lemma qsgd_compk_dense (g m : List ℚ) (tk : ℤ) (fr s : ℚ) :
    qsgd_compk g m tk fr s =
      .ok (signq (add m g), sub (add m g) (signq (add m g))) := by
  simp [qsgd_compk, qsgd_compk_cfg, sparsify, use_memory]

lemma tfSign_pos {x : ℚ} (h : 0 < x) : tfSign x = 1 := if_pos h

lemma tfSign_neg {x : ℚ} (h : x < 0) : tfSign x = -1 := by
  unfold tfSign
  rw [if_neg (by linarith), if_pos h]

lemma signq_eq_specQuantized (v : List ℚ) : signq v = specQuantized v := by
  unfold signq specQuantized
  exact List.map_congr_left (fun x _ => mul_div_right_comm ..)

lemma l1norm_pos_of_mem {t : List ℚ} {x : ℚ} (hx : x ∈ t) (h : x ≠ 0) :
    0 < l1norm t := by
  have h1 : 0 < |x| := abs_pos.2 h
  have h2 : |x| ≤ l1norm t := by
    refine List.single_le_sum (fun y hy => ?_) _ (List.mem_map_of_mem _ hx)
    rcases List.mem_map.1 hy with ⟨z, _, rfl⟩
    exact abs_nonneg z
  linarith

/-! ## Claim theorems -/

/-- C1: with top-K sparsification disabled (the `sparsify = False` branch)
and error feedback enabled (`use_memory`), the quantizer returns
`quantized = scale * sign(input + 1e-13)` with `input = memory + gradient`
and `scale = L1(input) / elementCount(input)`, and returns
`newResidual = input - quantized`; with error feedback disabled,
`input = gradient` instead. -/
theorem dense_quantizer_matches_spec (g m : List ℚ) (tk : ℤ) (fr s : ℚ)
    (_h : m.length = g.length) :
    qsgd_compk_cfg false true g m tk fr s =
      .ok (specQuantized (add m g), sub (add m g) (specQuantized (add m g))) ∧
    qsgd_compk_cfg false false g m tk fr s =
      .ok (specQuantized g, sub g (specQuantized g)) := by
  constructor <;>
    simp [qsgd_compk_cfg, signq_eq_specQuantized]

theorem dense_quantizer_matches_spec_w :
    qsgd_compk_cfg false true [(1 : ℚ), -2] [0, 0] 1 (1 / 1000) 256 =
      .ok (specQuantized (add [0, 0] [1, -2]),
           sub (add [0, 0] [1, -2]) (specQuantized (add [0, 0] [1, -2]))) ∧
    qsgd_compk_cfg false false [(1 : ℚ), -2] [0, 0] 1 (1 / 1000) 256 =
      .ok (specQuantized [1, -2], sub [1, -2] (specQuantized [1, -2])) :=
  dense_quantizer_matches_spec [1, -2] [0, 0] 1 (1 / 1000) 256 rfl

/-- C9: since the module fixes `sparsify = False`, `qsgd_compk` takes the
dense sign-quantization path whatever `topK_flag`, `frac` and `s` are, so
its result does not depend on those three arguments. -/
theorem qsgd_ignores_topk_args (g m : List ℚ) (tk1 tk2 : ℤ)
    (fr1 fr2 s1 s2 : ℚ) :
    qsgd_compk g m tk1 fr1 s1 = qsgd_compk g m tk2 fr2 s2 := by
  simp [qsgd_compk, qsgd_compk_cfg, sparsify]

/-- C10: with `sparsify` enabled and a falsy `topK_flag` (the
uniform-random index selection branch), `qsgd_compk` raises
`NameError` for `np` instead of returning a quantized tensor: the name
`np` is referenced on line 88 but never bound by the module. -/
theorem random_branch_np_unbound (um : Bool) (g m : List ℚ) (fr s : ℚ) :
    qsgd_compk_cfg true um g m 0 fr s = .error (.nameError "np") ∧
    lookupName "np" = none :=
  ⟨rfl, rfl⟩

/-- C7: if the gradient is exactly zero at every step and the residual
starts at zero, every step's quantized output is zero and the residual is
zero at every subsequent step. -/
theorem zero_gradient_idempotent (n k : ℕ) :
    residualSeq n k = List.replicate n 0 ∧
    (stepZero n (residualSeq n k)).1 = List.replicate n 0 ∧
    residualSeq n (k + 1) = List.replicate n 0 := by
  have hstep : stepZero n (List.replicate n 0) =
      (List.replicate n 0, List.replicate n 0) := by
    have hadd : add (List.replicate n 0) (List.replicate n 0) =
        List.replicate n 0 := by
      simp [add, zipWith_replicate_fn]
    have hsub : sub (List.replicate n 0) (List.replicate n 0) =
        List.replicate n 0 := by
      simp [sub, zipWith_replicate_fn]
    simp [stepZero, qsgd_compk_dense, hadd, signq_replicate_zero, hsub]
  have hres : ∀ j, residualSeq n j = List.replicate n 0 := by
    intro j
    induction j with
    | zero => rfl
    | succ i ih => simp [residualSeq, ih, hstep]
  exact ⟨hres k, by simp [hres k, hstep], hres (k + 1)⟩

lemma quantizeAt_eq (t : List ℚ) : quantizeAt t = signq t := by
  simp [quantizeAt, qsgd_compk_dense, add_replicate_zero_left]

/-- C4 counterexample: at `t = [-1e-14]` (residual 0, top-K disabled) the
quantized output is `[+1e-14] = [scale]`: it does not contain the two
values `±scale`, and the sign of the only entry disagrees with the sign of
`t[0] ≠ 0` (because `sign` is taken of `t[0] + 1e-13 > 0`). -/
theorem quantize_two_values_counterexample :
    ¬ (scaleOf [-1 / 10 ^ 14] ∈ quantizeAt [-1 / 10 ^ 14] ∧
       -scaleOf [-1 / 10 ^ 14] ∈ quantizeAt [-1 / 10 ^ 14] ∧
       (∀ x ∈ quantizeAt [-1 / 10 ^ 14], x ≠ 0 →
          x = scaleOf [-1 / 10 ^ 14] ∨ x = -scaleOf [-1 / 10 ^ 14]) ∧
       (∀ i : ℕ, ([-1 / 10 ^ 14] : List ℚ).getD i 0 ≠ 0 →
          tfSign ((quantizeAt [-1 / 10 ^ 14]).getD i 0) =
            tfSign (([-1 / 10 ^ 14] : List ℚ).getD i 0))) :=
  fun h => absurd h.2.1 (by
    rw [quantizeAt_eq]
    have habs : |(1 : ℚ) / 100000000000000| = 1 / 100000000000000 :=
      abs_of_pos (by norm_num)
    norm_num [signq, l1norm, tfSign, scaleOf, habs])

/-- C4 amended: for every dense tensor `t` quantized with residual 0 and
top-K disabled, every entry of the quantized output is `0`, `+scale` or
`-scale` with `scale = L1(t)/count(t)`, and the sign of `quantized[i]`
agrees with the sign of `t[i]` whenever `t[i] > 0` or `t[i] < -1e-13`
(entries of `t` in `[-1e-13, 0)` can be flipped to `+scale` or zeroed by
the `sign(input + 1e-13)` stabilizer, and only the magnitudes actually
present in the output occur). -/
theorem quantize_values_amended (t : List ℚ) (i : ℕ) :
    ((quantizeAt t).getD i 0 = 0 ∨ (quantizeAt t).getD i 0 = scaleOf t ∨
      (quantizeAt t).getD i 0 = -scaleOf t) ∧
    (0 < t.getD i 0 ∨ t.getD i 0 < -(1 / 10 ^ 13) →
      tfSign ((quantizeAt t).getD i 0) = tfSign (t.getD i 0)) := by
  rw [quantizeAt_eq]
  by_cases hi : i < t.length
  · have hlen : i < (signq t).length := by simpa [signq] using hi
    have hget : (signq t).getD i 0 =
        l1norm t * tfSign (t[i] + 1 / 10 ^ 13) / (t.length : ℚ) := by
      rw [List.getD_eq_getElem _ _ hlen]
      simp [signq]
    have hti : t.getD i 0 = t[i] := List.getD_eq_getElem _ _ hi
    have hlenpos : (0 : ℚ) < (t.length : ℚ) := by
      exact_mod_cast Nat.pos_of_ne_zero (by omega)
    rw [hget, hti]
    constructor
    · rcases lt_trichotomy 0 (t[i] + 1 / 10 ^ 13) with hpos | heq | hneg
      · right; left; rw [tfSign_pos hpos, scaleOf]; ring
      · left
        rw [← heq]
        simp [tfSign]
      · right; right; rw [tfSign_neg hneg, scaleOf]; ring
    · rintro (hpos | hneg)
      · have hεpos : 0 < t[i] + 1 / 10 ^ 13 := by
          have : (0 : ℚ) < 1 / 10 ^ 13 := by norm_num
          linarith
        have hl1 : 0 < l1norm t :=
          l1norm_pos_of_mem (List.getElem_mem hi) (ne_of_gt hpos)
        rw [tfSign_pos hεpos, tfSign_pos hpos, mul_one]
        exact tfSign_pos (div_pos hl1 hlenpos)
      · have hε : (0 : ℚ) < 1 / 10 ^ 13 := by norm_num
        have hεneg : t[i] + 1 / 10 ^ 13 < 0 := by linarith
        have htneg : t[i] < 0 := by linarith
        have hl1 : 0 < l1norm t :=
          l1norm_pos_of_mem (List.getElem_mem hi) (ne_of_lt htneg)
        rw [tfSign_neg hεneg, tfSign_neg htneg, mul_neg_one]
        exact tfSign_neg (by exact div_neg_of_neg_of_pos (neg_neg_of_pos hl1) hlenpos)
  · have h1 : (signq t).getD i 0 = 0 := by
      refine List.getD_eq_default _ _ ?_
      simpa [signq] using le_of_not_lt hi
    have h2 : t.getD i 0 = 0 :=
      List.getD_eq_default _ _ (le_of_not_lt hi)
    rw [h1, h2]
    refine ⟨Or.inl rfl, fun hcase => ?_⟩
    rcases hcase with hpos | hneg
    · exact absurd hpos (lt_irrefl 0)
    · norm_num at hneg

theorem quantize_values_amended_w :
    tfSign ((quantizeAt [(2 : ℚ), -1]).getD 1 0) =
      tfSign (([(2 : ℚ), -1] : List ℚ).getD 1 0) :=
  (quantize_values_amended [2, -1] 1).2 (Or.inr (by norm_num [List.getD]))

/-- C3 counterexample: the schedule the code realizes — the residual is
assigned directly after quantization, and compress/reduce/decompress/
rescale all run under a control dependency on that assignment — is a valid
execution of the graph, yet it does not follow the claimed order
"Quantize, Compress, Reduce, Decompress, Rescale, only then MemoryWrite". -/
theorem memory_write_order_counterexample :
    validSchedule codeSchedule ∧ ¬ specOrder codeSchedule := by decide

/-- C3 amended: in every execution of the dense path the order is
MemoryRead, Quantize, MemoryWrite, Compress, Reduce, Decompress, Rescale:
the new residual is written into the error-feedback memory before the
collective reduction, enforced by the control dependency of lines 155-161
on `mem_update_op`. -/
theorem memory_write_precedes_reduce (l : List Event) (h : validSchedule l) :
    idx .memoryRead l < idx .quantize l ∧
    idx .quantize l < idx .memoryWrite l ∧
    idx .memoryWrite l < idx .compress l ∧
    idx .compress l < idx .reduce l ∧
    idx .reduce l < idx .decompress l ∧
    idx .decompress l < idx .rescale l :=
  ⟨h.2 .quantize .memoryRead (by decide), h.2 .memoryWrite .quantize (by decide),
   h.2 .compress .memoryWrite (by decide), h.2 .reduce .compress (by decide),
   h.2 .decompress .reduce (by decide), h.2 .rescale .decompress (by decide)⟩

theorem memory_write_precedes_reduce_w :
    idx .memoryRead codeSchedule < idx .quantize codeSchedule ∧
    idx .quantize codeSchedule < idx .memoryWrite codeSchedule ∧
    idx .memoryWrite codeSchedule < idx .compress codeSchedule ∧
    idx .compress codeSchedule < idx .reduce codeSchedule ∧
    idx .reduce codeSchedule < idx .decompress codeSchedule ∧
    idx .decompress codeSchedule < idx .rescale codeSchedule :=
  memory_write_precedes_reduce codeSchedule (by decide)

lemma mapM_eq_ok_map {α β : Type} (f : α → Except PyErr β) (g : α → β)
    (h : ∀ a, f a = .ok (g a)) (l : List α) : l.mapM f = .ok (l.map g) := by
  induction l with
  | nil => rfl
  | cons x xs ih => rw [List.mapM_cons, h x, ih]; rfl

lemma allreduceDense_ok (ts ms : List (List ℚ)) (ws : ℕ) (avg : Bool) :
    allreduceDense ts ms ws avg = .ok (denseResult ts ms ws avg) := by
  have h : (ts.zip ms).mapM
      (fun p : List ℚ × List ℚ => qsgd_compk p.1 p.2 1 (1 / 1000) 256) =
      .ok ((ts.zip ms).map (fun p : List ℚ × List ℚ =>
        (signq (add p.2 p.1), sub (add p.2 p.1) (signq (add p.2 p.1))))) :=
    mapM_eq_ok_map _ _
      (fun p : List ℚ × List ℚ =>
        qsgd_compk_dense p.1 p.2 1 (1 / 1000) 256) _
  unfold allreduceDense denseResult
  rw [h]
  rfl

/-- C2 counterexample: with 3 workers each supplying `[1,-2,3,-4]`, zero
residuals, no compression and `average=True`, the dense allreduce does not
return `[1,-2,3,-4]`: the path quantizes before reducing. -/
theorem identical_inputs_counterexample :
    (allreduceDense (List.replicate 3 [(1 : ℚ), -2, 3, -4])
        (List.replicate 3 [0, 0, 0, 0]) 3 true).toOption.map Prod.fst ≠
      some (List.replicate 3 [(1 : ℚ), -2, 3, -4]) := by
  rw [allreduceDense_ok]
  simp only [Option.map, Except.toOption]
  norm_num [denseResult, mpi_allreduce, add, sub, signq, l1norm, tfSign,
    none_compress, none_decompress, List.replicate]

/-- C2 amended: with 3 workers each supplying `[1,-2,3,-4]`, zero
residuals, no compression and `average=True`, every worker receives the
sign-quantized tensor `[2.5,-2.5,2.5,-2.5]` (scale `= L1/count = 2.5`),
and every worker's residual memory becomes `[-1.5,0.5,0.5,-1.5]`. -/
theorem identical_inputs_quantized_average :
    allreduceDense (List.replicate 3 [(1 : ℚ), -2, 3, -4])
        (List.replicate 3 [0, 0, 0, 0]) 3 true =
      .ok (List.replicate 3 [(5 / 2 : ℚ), -5 / 2, 5 / 2, -5 / 2],
           List.replicate 3 [(-3 / 2 : ℚ), 1 / 2, 1 / 2, -3 / 2]) := by
  rw [allreduceDense_ok]
  norm_num [denseResult, mpi_allreduce, add, sub, signq, l1norm, tfSign,
    none_compress, none_decompress, List.replicate]

/-- C5: the sparse path performs two allgathers instead of an allreduce:
the result's `dense_shape` is the input's, its indices and values are the
rank-order concatenations without deduplication or merging (the total
length is the sum of the per-rank lengths), and averaging divides the
gathered values by WorldSize. -/
theorem sparse_allgather_path (ws : ℕ) (slices : List IndexedSlices) (r : ℕ)
    (avg : Bool) (h : r < slices.length) :
    (allreduceSparse ws slices r avg).dense_shape =
      (slices.get ⟨r, h⟩).dense_shape ∧
    (allreduceSparse ws slices r avg).indices =
      (slices.map IndexedSlices.indices).flatten ∧
    (allreduceSparse ws slices r avg).values =
      (if avg then
        ((slices.map IndexedSlices.values).flatten).map
          (List.map (fun x => x / (ws : ℚ)))
       else (slices.map IndexedSlices.values).flatten) ∧
    (allreduceSparse ws slices r avg).values.length =
      (slices.map (fun sl => sl.values.length)).sum := by
  refine ⟨?_, rfl, ?_, ?_⟩
  · simp [allreduceSparse, List.getD, List.getElem?_eq_getElem h]
  · simp only [allreduceSparse, mpi_allgather]
  · cases avg <;>
      simp [allreduceSparse, mpi_allgather, List.length_flatten,
        List.map_map, Function.comp_def]

theorem sparse_allgather_path_w :
    (allreduceSparse 2 [⟨[[1]], [0], [5]⟩, ⟨[[2], [3]], [1, 4], [5]⟩] 0
        true).dense_shape =
      (([⟨[[1]], [0], [5]⟩, ⟨[[2], [3]], [1, 4], [5]⟩] :
          List IndexedSlices).get ⟨0, by decide⟩).dense_shape ∧
    (allreduceSparse 2 [⟨[[1]], [0], [5]⟩, ⟨[[2], [3]], [1, 4], [5]⟩] 0
        true).indices =
      (([⟨[[1]], [0], [5]⟩, ⟨[[2], [3]], [1, 4], [5]⟩] :
          List IndexedSlices).map IndexedSlices.indices).flatten ∧
    (allreduceSparse 2 [⟨[[1]], [0], [5]⟩, ⟨[[2], [3]], [1, 4], [5]⟩] 0
        true).values =
      (if true then
        ((([⟨[[1]], [0], [5]⟩, ⟨[[2], [3]], [1, 4], [5]⟩] :
            List IndexedSlices).map IndexedSlices.values).flatten).map
          (List.map (fun x => x / ((2 : ℕ) : ℚ)))
       else (([⟨[[1]], [0], [5]⟩, ⟨[[2], [3]], [1, 4], [5]⟩] :
          List IndexedSlices).map IndexedSlices.values).flatten) ∧
    (allreduceSparse 2 [⟨[[1]], [0], [5]⟩, ⟨[[2], [3]], [1, 4], [5]⟩] 0
        true).values.length =
      (([⟨[[1]], [0], [5]⟩, ⟨[[2], [3]], [1, 4], [5]⟩] :
          List IndexedSlices).map (fun sl => sl.values.length)).sum :=
  sparse_allgather_path 2 [⟨[[1]], [0], [5]⟩, ⟨[[2], [3]], [1, 4], [5]⟩] 0
    true (by decide)

/-- C6: when WorldSize is 1, `compute_gradients` bypasses synchronization
and returns every local gradient (and every memory slot) unchanged, with
no quantization, memory update, or collective call. -/
theorem world_size_one_bypass (lr : ℚ) (worldSize : ℕ) (slots : List VarSlot)
    (h : worldSize = 1) :
    compute_gradients lr worldSize slots =
      .ok (slots.map (fun sl => (sl.grad, sl.mem))) := by
  subst h
  simp [compute_gradients]

theorem world_size_one_bypass_w :
    compute_gradients 1 1 [⟨some [[(3 : ℚ), 7]], [[0, 0]]⟩] =
      .ok (([⟨some [[(3 : ℚ), 7]], [[0, 0]]⟩] :
        List VarSlot).map (fun sl => (sl.grad, sl.mem))) :=
  world_size_one_bypass 1 1 [⟨some [[(3 : ℚ), 7]], [[0, 0]]⟩] rfl

lemma allreduce_grads_slot_ok (lr : ℚ) (ws : ℕ) (sl : VarSlot) :
    allreduce_grads_slot lr ws sl = .ok (gradStep lr ws sl) := by
  unfold allreduce_grads_slot gradStep
  cases sl.grad with
  | none => rfl
  | some gs => dsimp only; rw [allreduceDense_ok]; rfl

lemma allreduce_grads_eq (lr : ℚ) (ws : ℕ) (slots : List VarSlot) :
    allreduce_grads lr ws slots = .ok (slots.map (gradStep lr ws)) :=
  mapM_eq_ok_map (allreduce_grads_slot lr ws) (gradStep lr ws)
    (allreduce_grads_slot_ok lr ws) slots

/-- C8: for a non-`None` gradient when WorldSize > 1, the synchronized
gradient is `allreduce(g * learningRate) / (learningRate + 1e-5)`: scaled
by the learning rate before the reduction, divided by the learning rate
plus the 1e-5 epsilon after it. -/
theorem lr_scaling_formula (lr : ℚ) (ws : ℕ) (slots : List VarSlot) (j : ℕ)
    (gs ms : List (List ℚ)) (dr : List (List ℚ) × List (List ℚ))
    (hws : 1 < ws) (hj : slots[j]? = some ⟨some gs, ms⟩)
    (hdr : allreduceDense (gs.map (List.map (fun x => x * lr))) ms ws true =
      .ok dr) :
    (compute_gradients lr ws slots).toOption.bind (fun res => res[j]?) =
      some (some (dr.1.map (List.map (fun x => x / (lr + 1 / 100000)))),
            dr.2) := by
  rw [allreduceDense_ok] at hdr
  obtain rfl : denseResult (gs.map (List.map (fun x => x * lr))) ms ws true
      = dr := Except.ok.inj hdr
  rw [compute_gradients, if_pos hws, allreduce_grads_eq]
  rw [Except.toOption]
  show (slots.map (gradStep lr ws))[j]? = _
  rw [List.getElem?_map, hj]
  rfl

theorem lr_scaling_formula_w :
    (compute_gradients 1 2 [⟨some [[(1 : ℚ)], [1]], [[0], [0]]⟩]).toOption.bind
        (fun res => res[0]?) =
      some (some ((denseResult ((([[(1 : ℚ)], [1]] : List (List ℚ))).map
          (List.map (fun x => x * 1))) [[0], [0]] 2 true).1.map
            (List.map (fun x => x / (1 + 1 / 100000)))),
        (denseResult ((([[(1 : ℚ)], [1]] : List (List ℚ))).map
          (List.map (fun x => x * 1))) [[0], [0]] 2 true).2) :=
  lr_scaling_formula 1 2 [⟨some [[(1 : ℚ)], [1]], [[0], [0]]⟩] 0
    [[(1 : ℚ)], [1]] [[0], [0]] _ (by norm_num) rfl (allreduceDense_ok ..)

end Horovod
